import Mathlib

/-!
Verification of the Sui-Defender frame-simulation loop.

This file is a shallow embedding of the game logic found in
`src/unnamed/part_000` (the latest revision of the game component; the
earlier revision `src/src/components/Game.tsx` shares `fireWave`,
`handleMouseUp` and the geometric part of `drawWaves` verbatim).

Modelling conventions:
* JavaScript numbers are modelled as exact rationals (`ℚ`); quantities that
  are integers throughout the program (score, HP, combo, ids, boss damage)
  are modelled as `ℤ` or `ℕ`.
* The source compares `Math.sqrt(d2)` against thresholds.  The embedded
  boolean checks use the equivalent squared comparisons over `ℚ` so that
  they stay executable; the lemmas `ltDistB_iff_sqrt` and
  `ringBandAt_iff_sqrt` prove the checks equal to the original
  real-square-root conditions.
* Purely cosmetic state (particles, score popups, background flashes,
  screen shakes, stars, audio) and rendering calls are omitted: they never
  feed back into the simulated fields.  Randomized entity factories are not
  needed by the verified properties and are likewise omitted.
-/

/-- Viewport width (`WIDTH = 900`). -/
def WIDTH : ℚ := 900

/-- Viewport height (`HEIGHT = 650`). -/
def HEIGHT : ℚ := 650

/-- Radius of the defended SUI coin (`SUI_RADIUS = 55`). -/
def SUI_RADIUS : ℚ := 55

/-- Horizontal center (`CENTER_X = WIDTH / 2`). -/
def CENTER_X : ℚ := WIDTH / 2

/-- Vertical center (`CENTER_Y = HEIGHT / 2`). -/
def CENTER_Y : ℚ := HEIGHT / 2

/-- Hold duration that upgrades a release to a strong wave
(`HOLD_THRESHOLD_MS = 2000`). -/
def HOLD_THRESHOLD_MS : ℚ := 2000

/-- The eight crypto coin kinds a meteor can carry
(`COIN_TYPES_PHASE1 ++ COIN_TYPES_PHASE2`). -/
inductive CoinType where
  | BTC | ETH | SOL | PEPE | DOGE | SHIB | BONK | WIF
deriving DecidableEq, Repr

/-- Score reward per coin type (`COIN_SCORE`). -/
def COIN_SCORE : CoinType → ℤ
  | .BTC => 50
  | .ETH => 30
  | .SOL => 20
  | .PEPE => 40
  | .DOGE => 60
  | .SHIB => 70
  | .BONK => 55
  | .WIF => 80

/-- Speed multiplier per coin type (`COIN_SPEED`). -/
def COIN_SPEED : CoinType → ℚ
  | .BTC => 28/10
  | .ETH => 22/10
  | .SOL => 16/10
  | .PEPE => 25/10
  | .DOGE => 32/10
  | .SHIB => 35/10
  | .BONK => 3
  | .WIF => 38/10

/-- Power-up kinds (`type PowerUpType`). -/
inductive PowerUpType where
  | shield | speed | multiplier | heal
deriving DecidableEq, Repr

/-- A timed buff obtained from a collected power-up (`interface ActivePowerUp`). -/
structure ActivePowerUp where
  type : PowerUpType
  duration : ℕ
deriving DecidableEq, Repr

/-- Boss kinds (`type BossType`). -/
inductive BossType where
  | PEPE_KING | BONK_BOSS
deriving DecidableEq, Repr

/-- An expanding attack ring (`interface Wave`). -/
structure Wave where
  id : ℕ
  x : ℚ
  y : ℚ
  radius : ℚ
  maxRadius : ℚ
  alpha : ℚ
  strong : Bool
deriving DecidableEq, Repr

/-- An incoming meteor (`interface Meteor`). -/
structure Meteor where
  id : ℕ
  type : CoinType
  x : ℚ
  y : ℚ
  vx : ℚ
  vy : ℚ
  radius : ℚ
  rotation : ℚ
  rotSpeed : ℚ
  hp : ℤ
deriving DecidableEq, Repr

/-- A boss enemy (`interface Boss`). -/
structure Boss where
  id : ℕ
  type : BossType
  x : ℚ
  y : ℚ
  vx : ℚ
  vy : ℚ
  radius : ℚ
  hp : ℤ
  maxHp : ℤ
  rotation : ℚ
  rotSpeed : ℚ
  attackTimer : ℕ
  phase : ℕ
deriving DecidableEq, Repr

/-- A projectile fired by a boss (`interface BossProjectile`); the cosmetic
`color` string is kept for completeness. -/
structure BossProjectile where
  id : ℕ
  x : ℚ
  y : ℚ
  vx : ℚ
  vy : ℚ
  radius : ℚ
  color : String
  damage : ℤ
deriving DecidableEq, Repr

/-- A leaderboard entry (`interface PlayerScore`); the `date` string is
produced from the wall clock, an external collaborator, and is omitted. -/
structure PlayerScore where
  name : String
  score : ℤ
deriving DecidableEq, Repr

/-- The UI phase of the game component (the `gamePhase` state and ref). -/
inductive GamePhase where
  | login | start | playing | paused | gameover | phasecomplete
deriving DecidableEq, Repr

/-- The mutable simulation state (`interface GameState` plus the phase ref,
the player name ref and the persisted leaderboard and high score, which the
simulation reads and writes on game over).  Cosmetic fields (particles,
score popups, stars, flashes, shakes, pulse timers) and the id counters not
used by the verified properties are omitted. -/
structure GameState where
  score : ℤ
  highScore : ℤ
  hp : ℤ
  meteors : List Meteor
  waves : List Wave
  activePowerUps : List ActivePowerUp
  bossProjectiles : List BossProjectile
  mouseX : ℚ
  mouseY : ℚ
  nextWaveId : ℕ
  spawnTimer : ℕ
  spawnInterval : ℚ
  gameOver : Bool
  combo : ℕ
  comboTimer : ℕ
  mouseDownTime : Option ℚ
  chargeProgress : ℚ
  currentPhase : ℕ
  boss : Option Boss
  bossDefeated : Bool
  gamePhase : GamePhase
  playerName : String
  leaderboard : List PlayerScore
deriving DecidableEq, Repr

/-- Squared Euclidean distance between two points, the `dx*dx + dy*dy`
computed before every `Math.sqrt` call in the source. -/
def distSq (ax ay bx bY : ℚ) : ℚ := (ax - bx) ^ 2 + (ay - bY) ^ 2

/-- Executable form of `Math.sqrt(d2) < k`: the square root of a
nonnegative number is below `k` iff `k` is positive and `d2 < k²`.
Equivalence with the real statement is `ltDistB_iff_sqrt`. -/
def ltDistB (d2 k : ℚ) : Bool := decide (0 < k ∧ d2 < k ^ 2)

/-- Ring thickness of a wave (`w.strong ? 20 : 12` in `drawWaves`). -/
def ringThickness (w : Wave) : ℚ := if w.strong then 20 else 12

/-- Executable form of the ring-band test
`Math.abs(Math.sqrt(d2) - w.radius) < ringThickness + targetRadius` against
a target of radius `pr` centered at `(px, py)`.  Equivalence with the real
statement is `ringBandAt_iff_sqrt`. -/
def ringBandAt (w : Wave) (px py pr : ℚ) : Bool :=
  let d2 := distSq px py w.x w.y
  let t := ringThickness w + pr
  decide (d2 < (w.radius + t) ^ 2 ∧ (w.radius < t ∨ (w.radius - t) ^ 2 < d2))

/-- Ring-band test of a wave against a meteor (`drawWaves`, hit check). -/
def bandHitB (w : Wave) (m : Meteor) : Bool := ringBandAt w m.x m.y m.radius

/-- Ring-band test of a wave against the boss (`gameLoop`, boss hit scan). -/
def bossBandB (w : Wave) (b : Boss) : Bool := ringBandAt w b.x b.y b.radius

/-- Does an active buff of the given kind exist
(`state.activePowerUps.some(p => p.type === t)`). -/
def hasPU (l : List ActivePowerUp) (t : PowerUpType) : Bool :=
  l.any (fun p => decide (p.type = t))

/-- Cost of firing a wave (`strong ? 30 : 10` in `fireWave`). -/
def waveCost (strong : Bool) : ℤ := if strong then 30 else 10

/-- Max radius of a strong wave:
`Math.sqrt(WIDTH * WIDTH + HEIGHT * HEIGHT) + 60`.  The real value
`√1232500 + 60` is irrational; this constant is its exact IEEE-754 double
value, which is what the program computes.  No verified property depends on
the numeric value of this constant. -/
def STRONG_WAVE_MAX_RADIUS : ℚ := 5146506794498655 / 4398046511104

/-- One of the three staggered rings of a strong wave (`fireWave`, strong
branch, ring index `ring ∈ {0,1,2}`). -/
def strongWaveRing (wid ring : ℕ) : Wave :=
  { id := wid + ring, x := CENTER_X, y := CENTER_Y,
    radius := 8 + ring * 30, maxRadius := STRONG_WAVE_MAX_RADIUS,
    alpha := 1, strong := true }

/-- The single ring of a simple wave (`fireWave`, simple branch). -/
def simpleWave (wid : ℕ) (ox oy : ℚ) : Wave :=
  { id := wid, x := ox, y := oy, radius := 8, maxRadius := 200,
    alpha := 1, strong := false }

/-- The waves appended by one `fireWave` call: three staggered center rings
when strong, one ring at the release position when simple. -/
def firedWaves (strong : Bool) (wid : ℕ) (ox oy : ℚ) : List Wave :=
  if strong then [strongWaveRing wid 0, strongWaveRing wid 1, strongWaveRing wid 2]
  else [simpleWave wid ox oy]

/-- The `fireWave` callback: refuse silently when the score cannot pay the
cost, otherwise deduct the cost and append the new wave(s).  The
`playShootSound` side effect is cosmetic and omitted. -/
def fireWave (strong : Bool) (ox oy : ℚ) (s : GameState) : GameState :=
  if s.score < waveCost strong then s
  else
    { s with
      score := s.score - waveCost strong,
      waves := s.waves ++ firedWaves strong s.nextWaveId ox oy,
      nextWaveId := s.nextWaveId + (if strong then 3 else 1) }

/-- Classification of a release (`held >= HOLD_THRESHOLD_MS` in
`handleMouseUp`). -/
def releaseStrong (held : ℚ) : Bool := decide (HOLD_THRESHOLD_MS ≤ held)

/-- The `handleMouseUp` callback (left button already filtered): outside
the playing phase or without a recorded press it does nothing; otherwise it
classifies the held duration and fires from the current mouse position. -/
def handleMouseUp (now : ℚ) (s : GameState) : GameState :=
  if s.gamePhase ≠ GamePhase.playing then s
  else
    match s.mouseDownTime with
    | none => s
    | some t0 =>
        let held := now - t0
        fireWave (releaseStrong held) s.mouseX s.mouseY
          { s with mouseDownTime := none, chargeProgress := 0 }

/-- Expansion of a wave at the top of its `drawWaves` iteration:
`w.radius += (w.strong ? 9 : 6); w.alpha = 1 - w.radius / w.maxRadius`. -/
def expandWave (w : Wave) : Wave :=
  let r := w.radius + (if w.strong then 9 else 6)
  { w with radius := r, alpha := 1 - r / w.maxRadius }

/-- The waves that survive this tick of `drawWaves`: every wave expands,
and the ones whose new radius reached `maxRadius` are spliced out. -/
def aliveWaves (ws : List Wave) : List Wave :=
  (ws.map expandWave).filter (fun w => decide (w.radius < w.maxRadius))

/-- Points awarded for a kill in `drawWaves`: the coin value, doubled by an
active multiplier buff, then scaled by the freshly incremented combo
counter capped at 10 (`Math.floor(points * (1 + comboMultiplier * 0.1))`). -/
def killPoints (hasMult : Bool) (newCombo : ℕ) (t : CoinType) : ℤ :=
  let base := COIN_SCORE t
  let p := if hasMult then base * 2 else base
  ⌊(p : ℚ) * (1 + (min newCombo 10 : ℕ) * (1 / 10))⌋

/-- Accumulator threaded through the `drawWaves` loops: the fields of the
game state the pass mutates, plus the list of `(wave id, meteor id)` hit
events in the order the pass performs them. -/
structure PassAcc where
  waves : List Wave
  meteors : List Meteor
  score : ℤ
  combo : ℕ
  comboTimer : ℕ
  hp : ℤ
  hits : List (ℕ × ℕ)
deriving DecidableEq, Repr

/-- Body of the inner meteor loop of `drawWaves` for one (already expanded,
alive) wave `w` and one meteor `m`: on a ring-band hit the combo is bumped,
the combo timer reset to 120, the scaled points added, the meteor removed
(recorded as a hit event) and an active heal buff restores 2 HP capped at
100; otherwise the meteor is kept.  Cosmetic explosion, flash, shake,
popup and audio effects are omitted. -/
def hitMeteor (w : Wave) (hasMult hasHeal : Bool) (m : Meteor) (acc : PassAcc) : PassAcc :=
  if bandHitB w m then
    let combo := acc.combo + 1
    { acc with
      combo := combo,
      comboTimer := 120,
      score := acc.score + killPoints hasMult combo m.type,
      hp := if hasHeal then min 100 (acc.hp + 2) else acc.hp,
      hits := acc.hits ++ [(w.id, m.id)] }
  else { acc with meteors := m :: acc.meteors }

/-- Body of the outer wave loop of `drawWaves`: expand the wave; a wave
reaching `maxRadius` is removed and performs no meteor checks (`continue`);
an alive wave scans the surviving meteors (the source iterates indices
downwards, which the `foldr` reproduces) and is kept. -/
def processWave (hasMult hasHeal : Bool) (w : Wave) (acc : PassAcc) : PassAcc :=
  let w := expandWave w
  if w.maxRadius ≤ w.radius then acc
  else
    let acc := acc.meteors.foldr (hitMeteor w hasMult hasHeal) { acc with meteors := [] }
    { acc with waves := w :: acc.waves }

/-- The simulation part of `drawWaves` (part_000 lines 1718-1772): one tick
of wave expansion, wave removal and wave-vs-meteor hit resolution.  The
source iterates the wave array from its last index to 0; `List.foldr`
applies its function to the last element first, reproducing that order for
both loops.  Returns the updated state and the hit events in pass order.
The phase and boss-spawn checks that the source interleaves per wave
iteration (lines 1776-1810) touch neither waves, meteors, score deltas of
this pass, combo, nor HP, and are modelled separately
(`phaseTransitionStep`). -/
def drawWaves (s : GameState) : GameState × List (ℕ × ℕ) :=
  let hasMult := hasPU s.activePowerUps PowerUpType.multiplier
  let hasHeal := hasPU s.activePowerUps PowerUpType.heal
  let acc : PassAcc :=
    { waves := [], meteors := s.meteors, score := s.score, combo := s.combo,
      comboTimer := s.comboTimer, hp := s.hp, hits := [] }
  let r := s.waves.foldr (processWave hasMult hasHeal) acc
  ({ s with waves := r.waves, meteors := r.meteors, score := r.score,
            combo := r.combo, comboTimer := r.comboTimer, hp := r.hp },
   r.hits)

/-- Spawn interval floor (`state.currentPhase === 1 ? 40 : 30` inside
`gameLoop`). -/
def spawnIntervalFloor (phase : ℕ) : ℚ := if phase = 1 then 40 else 30

/-- The spawn interval update performed when the spawn timer fires
(`state.spawnInterval = Math.max(floor, state.spawnInterval - 0.3)`,
part_000 line 2160). -/
def spawnIntervalStep (phase : ℕ) (interval : ℚ) : ℚ :=
  max (spawnIntervalFloor phase) (interval - 3 / 10)

/-- The phase 1 to phase 2 transition check of `drawWaves` (part_000 lines
1787-1793): once the phase 1 boss is defeated and the score reaches 1500,
enter phase 2, rearm the boss flag and reset the spawn interval to 60. -/
def phaseTransitionStep (s : GameState) : GameState :=
  if s.currentPhase = 1 ∧ s.bossDefeated ∧ 1500 ≤ s.score then
    { s with currentPhase := 2, bossDefeated := false, spawnInterval := 60 }
  else s

/-- Insertion into a descending-by-score list, keeping earlier entries
first among equal scores (the stable `sort((a, b) => b.score - a.score)`
of `addScoreToLeaderboard`). -/
def insertDesc (p : PlayerScore) : List PlayerScore → List PlayerScore
  | [] => [p]
  | q :: rest => if p.score ≤ q.score then q :: insertDesc p rest else p :: q :: rest

/-- Stable descending sort by score. -/
def sortDesc (l : List PlayerScore) : List PlayerScore := l.foldr insertDesc []

/-- The `addScoreToLeaderboard` helper: append the new entry, sort by score
descending, keep the top 10.  The localStorage round trip is the external
persistence collaborator and is modelled as the list itself. -/
def addScoreToLeaderboard (board : List PlayerScore) (name : String) (sc : ℤ) :
    List PlayerScore :=
  (sortDesc (board ++ [{ name := name, score := sc }])).take 10

/-- Fallback player name (`playerNameRef.current || "Player"`). -/
def effectiveName (n : String) : String := if n = "" then "Player" else n

/-- The game-over handling of the meteor-collision branch of `gameLoop`
(part_000 lines 2245-2259): set the game-over flag, persist the high score
when beaten, record the final score on the leaderboard and move the UI to
the gameover phase.  `setTopPlayers` and `stopMusic` are cosmetic or
external and omitted. -/
def gameOverTransition (s : GameState) : GameState :=
  let s := { s with gameOver := true }
  let s := if s.highScore < s.score then { s with highScore := s.score } else s
  { s with
    leaderboard := addScoreToLeaderboard s.leaderboard (effectiveName s.playerName) s.score,
    gamePhase := GamePhase.gameover }

/-- Kinematic step of a meteor (`m.x += m.vx; m.y += m.vy;
m.rotation += m.rotSpeed`). -/
def moveMeteor (m : Meteor) : Meteor :=
  { m with x := m.x + m.vx, y := m.y + m.vy, rotation := m.rotation + m.rotSpeed }

/-- Shield interception radius (`SUI_RADIUS + 30` in `gameLoop`). -/
def shieldRadius : ℚ := SUI_RADIUS + 30

/-- Body of the per-meteor update loop of `gameLoop` (part_000 lines
2219-2260): move the meteor, then with an active shield destroy it inside
the shield boundary without HP loss; otherwise inside the coin boundary
destroy it, deduct 10 HP clamped at 0 and run the game-over transition when
HP is exhausted.  Returns the new state and the surviving meteor, if any.
Cosmetic explosion and shake effects are omitted. -/
def updateMeteor (s : GameState) (m0 : Meteor) : GameState × Option Meteor :=
  let m := moveMeteor m0
  let d2 := distSq m.x m.y CENTER_X CENTER_Y
  if hasPU s.activePowerUps PowerUpType.shield && ltDistB d2 (shieldRadius + m.radius) then
    (s, none)
  else if ltDistB d2 (SUI_RADIUS + m.radius - 10) then
    let s := { s with hp := max 0 (s.hp - 10) }
    let s := if s.hp ≤ 0 then gameOverTransition s else s
    (s, none)
  else (s, some m)

/-- Body of the per-projectile update loop of `gameLoop` (part_000 lines
2343-2371, inside the active-boss block): move the projectile; on contact
with the coin deduct its damage, clamp HP at 0 and raise only the
`gameOver` flag; off-screen projectiles are discarded.  Returns the new
state and the surviving projectile, if any. -/
def updateProjectile (s : GameState) (p0 : BossProjectile) : GameState × Option BossProjectile :=
  let p := { p0 with x := p0.x + p0.vx, y := p0.y + p0.vy }
  let d2 := distSq p.x p.y CENTER_X CENTER_Y
  if ltDistB d2 (SUI_RADIUS + p.radius) then
    let s := { s with hp := s.hp - p.damage }
    let s := if s.hp ≤ 0 then { s with hp := 0, gameOver := true } else s
    (s, none)
  else if p.x < -50 ∨ WIDTH + 50 < p.x ∨ p.y < -50 ∨ HEIGHT + 50 < p.y then (s, none)
  else (s, some p)

/-- Damage of a boss projectile by boss kind (`spawnBossProjectile`:
`bossType === "PEPE_KING" ? 3 : 5`). -/
def bossProjectileDamage : BossType → ℤ
  | .PEPE_KING => 3
  | .BONK_BOSS => 5

/-- Defeat bonus by boss kind (`boss.type === "PEPE_KING" ? 500 : 1000` in
`gameLoop`). -/
def bossBonus : BossType → ℤ
  | .PEPE_KING => 500
  | .BONK_BOSS => 1000

/-- Effect of the first wave whose ring band overlaps the boss (part_000
lines 2308-2338): deduct 25 (strong) or 10 (simple) HP, add the same
amount to the score, and on reaching 0 HP mark the boss defeated, add the
defeat bonus and remove the boss. -/
def applyBossHit (s : GameState) (b : Boss) (w : Wave) : GameState :=
  let damage : ℤ := if w.strong then 25 else 10
  let hp := b.hp - damage
  if hp ≤ 0 then
    { s with score := s.score + damage + bossBonus b.type,
             bossDefeated := true, boss := none }
  else
    { s with score := s.score + damage, boss := some { b with hp := hp } }

/-- The wave scan of the boss block (`for i = waves.length - 1; ...` with a
`break` on the first hit): the reversed wave list reproduces the
last-to-first iteration, and recursion stops at the first band overlap. -/
def bossScanLoop (s : GameState) (b : Boss) : List Wave → GameState
  | [] => s
  | w :: rest => if bossBandB w b then applyBossHit s b w else bossScanLoop s b rest

/-- The boss-vs-waves hit resolution of one `gameLoop` tick, guarded like
the source by `state.boss && !state.bossDefeated`. -/
def bossWaveScan (s : GameState) : GameState :=
  match s.boss with
  | none => s
  | some b => if s.bossDefeated then s else bossScanLoop s b s.waves.reverse

/-- The three HP-changing event kinds of one tick, each carrying exactly
the update its source site performs. -/
inductive HpEvent where
  | meteorHit
  | projectileHit (b : BossType)
  | healOnKill
deriving DecidableEq, Repr

/-- Effect of one HP event on the coin HP:
meteor collision `hp = Math.max(0, hp - 10)` (line 2241), boss projectile
`hp -= damage` then clamp to 0 when nonpositive (lines 2354-2365), heal
buff on kill `hp = Math.min(100, hp + 2)` (line 1769). -/
def applyHpEvent (hp : ℤ) : HpEvent → ℤ
  | .meteorHit => max 0 (hp - 10)
  | .projectileHit b =>
      let h := hp - bossProjectileDamage b
      if h ≤ 0 then 0 else h
  | .healOnKill => min 100 (hp + 2)

/-- Squared distances are nonnegative. -/
lemma distSq_nonneg (ax ay bx bY : ℚ) : 0 ≤ distSq ax ay bx bY := by
  unfold distSq; positivity

/-- The executable check `ltDistB` coincides with the source comparison
`Math.sqrt(d2) < k`. -/
lemma ltDistB_iff_sqrt (d2 k : ℚ) (hd : 0 ≤ d2) :
    ltDistB d2 k = true ↔ Real.sqrt (d2 : ℝ) < (k : ℝ) := by
  have hd' : (0 : ℝ) ≤ (d2 : ℝ) := by exact_mod_cast hd
  unfold ltDistB
  rw [decide_eq_true_iff]
  constructor
  · rintro ⟨hk, hlt⟩
    have hk' : (0 : ℝ) < (k : ℝ) := by exact_mod_cast hk
    rw [Real.sqrt_lt' hk']
    exact_mod_cast hlt
  · intro h
    have hk' : (0 : ℝ) < (k : ℝ) := lt_of_le_of_lt (Real.sqrt_nonneg _) h
    have hk : 0 < k := by exact_mod_cast hk'
    refine ⟨hk, ?_⟩
    have := (Real.sqrt_lt' hk').mp h
    exact_mod_cast this

/-- Core equivalence between the squared band test and the real
absolute-value condition of the source. -/
lemma sq_band_iff (d2 r t : ℚ) (hd : 0 ≤ d2) (hr : 0 ≤ r) (ht : 0 < t) :
    (d2 < (r + t) ^ 2 ∧ (r < t ∨ (r - t) ^ 2 < d2)) ↔
      |Real.sqrt (d2 : ℝ) - (r : ℝ)| < (t : ℝ) := by
  have hd' : (0 : ℝ) ≤ (d2 : ℝ) := by exact_mod_cast hd
  have hr' : (0 : ℝ) ≤ (r : ℝ) := by exact_mod_cast hr
  have ht' : (0 : ℝ) < (t : ℝ) := by exact_mod_cast ht
  have hx : 0 ≤ Real.sqrt (d2 : ℝ) := Real.sqrt_nonneg _
  have h1 : Real.sqrt (d2 : ℝ) < (r : ℝ) + t ↔ d2 < (r + t) ^ 2 := by
    rw [Real.sqrt_lt' (by linarith)]
    constructor
    · intro h; exact_mod_cast h
    · intro h; exact_mod_cast h
  have h2 : (r : ℝ) - t < Real.sqrt (d2 : ℝ) ↔ (r < t ∨ (r - t) ^ 2 < d2) := by
    rcases lt_or_le r t with hcase | hcase
    · have hrt : (r : ℝ) - t < 0 := by
        have : (r : ℝ) < (t : ℝ) := by exact_mod_cast hcase
        linarith
      constructor
      · intro _; exact Or.inl hcase
      · intro _; exact lt_of_lt_of_le hrt hx
    · have hrt : (0 : ℝ) ≤ (r : ℝ) - t := by
        have : (t : ℝ) ≤ (r : ℝ) := by exact_mod_cast hcase
        linarith
      rw [Real.lt_sqrt hrt]
      constructor
      · intro h
        refine Or.inr ?_
        exact_mod_cast h
      · rintro (h | h)
        · exact absurd h (not_lt.mpr hcase)
        · exact_mod_cast h
  rw [abs_sub_lt_iff]
  rw [sub_lt_iff_lt_add', sub_lt_comm]
  rw [h2]
  constructor
  · rintro ⟨ha, hb⟩
    exact ⟨h1.mpr ha, hb⟩
  · rintro ⟨ha, hb⟩
    exact ⟨h1.mp ha, hb⟩

/-- The executable ring-band test coincides with the source condition
`Math.abs(Math.sqrt(d2) - w.radius) < ringThickness + pr` whenever the wave
radius is nonnegative and the combined thickness is positive. -/
lemma ringBandAt_iff_sqrt (w : Wave) (px py pr : ℚ)
    (hr : 0 ≤ w.radius) (ht : 0 < ringThickness w + pr) :
    ringBandAt w px py pr = true ↔
      |Real.sqrt ((distSq px py w.x w.y : ℚ) : ℝ) - (w.radius : ℝ)| <
        ((ringThickness w : ℚ) : ℝ) + (pr : ℝ) := by
  unfold ringBandAt
  rw [decide_eq_true_iff]
  have := sq_band_iff (distSq px py w.x w.y) w.radius (ringThickness w + pr)
    (distSq_nonneg _ _ _ _) hr ht
  rw [this]
  push_cast
  exact Iff.rfl


/-- Field view of one `hitMeteor` step: the meteor survives exactly when
it is outside the ring band. -/
lemma hitMeteor_meteors (w : Wave) (hm hh : Bool) (m : Meteor) (acc : PassAcc) :
    (hitMeteor w hm hh m acc).meteors
      = if bandHitB w m then acc.meteors else m :: acc.meteors := by
  unfold hitMeteor; cases hb : bandHitB w m <;> simp

/-- One `hitMeteor` step never touches the wave accumulator. -/
lemma hitMeteor_waves (w : Wave) (hm hh : Bool) (m : Meteor) (acc : PassAcc) :
    (hitMeteor w hm hh m acc).waves = acc.waves := by
  unfold hitMeteor; cases hb : bandHitB w m <;> simp

/-- Field view of one `hitMeteor` step: a banded meteor appends one hit
event. -/
lemma hitMeteor_hits (w : Wave) (hm hh : Bool) (m : Meteor) (acc : PassAcc) :
    (hitMeteor w hm hh m acc).hits
      = if bandHitB w m then acc.hits ++ [(w.id, m.id)] else acc.hits := by
  unfold hitMeteor; cases hb : bandHitB w m <;> simp

/-- The inner meteor loop keeps exactly the meteors outside the ring band
of the scanning wave, as the same untouched records in order. -/
lemma hitMeteor_foldr_meteors (w : Wave) (hm hh : Bool) (ms : List Meteor) (a : PassAcc) :
    (ms.foldr (hitMeteor w hm hh) a).meteors
      = ms.filter (fun m => !bandHitB w m) ++ a.meteors := by
  induction ms with
  | nil => simp
  | cons m t ih =>
    rw [List.foldr_cons, hitMeteor_meteors, List.filter_cons]
    cases hb : bandHitB w m
    · simp [ih]
    · simp [ih]

/-- The inner meteor loop never touches the wave accumulator. -/
lemma hitMeteor_foldr_waves (w : Wave) (hm hh : Bool) (ms : List Meteor) (a : PassAcc) :
    (ms.foldr (hitMeteor w hm hh) a).waves = a.waves := by
  induction ms with
  | nil => rfl
  | cons m t ih => rw [List.foldr_cons, hitMeteor_waves, ih]

/-- Hit events recorded by the inner meteor loop: one event per banded
meteor, appended in the downward iteration order of the source. -/
lemma hitMeteor_foldr_hits (w : Wave) (hm hh : Bool) (ms : List Meteor) (a : PassAcc) :
    (ms.foldr (hitMeteor w hm hh) a).hits
      = a.hits ++ (ms.reverse.filter (fun m => bandHitB w m)).map (fun m => (w.id, m.id)) := by
  induction ms with
  | nil => simp
  | cons m t ih =>
    rw [List.foldr_cons, hitMeteor_hits, List.reverse_cons, List.filter_append,
      List.map_append, ih]
    cases hb : bandHitB w m
    · simp [hb]
    · simp [hb, List.append_assoc]

/-- Unfolding of `aliveWaves` on a cons cell. -/
lemma aliveWaves_cons (w : Wave) (t : List Wave) :
    aliveWaves (w :: t)
      = if (expandWave w).radius < (expandWave w).maxRadius
          then expandWave w :: aliveWaves t else aliveWaves t := by
  unfold aliveWaves
  rw [List.map_cons, List.filter_cons]
  rcases lt_or_le (expandWave w).radius (expandWave w).maxRadius with h | h
  · rw [if_pos h, if_pos (by simpa using h)]
  · rw [if_neg (not_lt.mpr h), if_neg (by simpa using not_lt.mpr h)]

/-- Field view of one `processWave` step: the wave survives exactly when
its expanded radius is below its max radius. -/
lemma processWave_waves (hm hh : Bool) (w : Wave) (acc : PassAcc) :
    (processWave hm hh w acc).waves
      = if (expandWave w).radius < (expandWave w).maxRadius
          then expandWave w :: acc.waves else acc.waves := by
  unfold processWave
  rcases lt_or_le (expandWave w).radius (expandWave w).maxRadius with h | h
  · rw [if_neg (not_le.mpr h), if_pos h]
    simp [hitMeteor_foldr_waves]
  · rw [if_pos h, if_neg (not_lt.mpr h)]

/-- Field view of one `processWave` step on the meteor list: a dead wave
checks nothing, an alive wave filters out its ring band. -/
lemma processWave_meteors (hm hh : Bool) (w : Wave) (acc : PassAcc) :
    (processWave hm hh w acc).meteors
      = if (expandWave w).radius < (expandWave w).maxRadius
          then acc.meteors.filter (fun m => !bandHitB (expandWave w) m) else acc.meteors := by
  unfold processWave
  rcases lt_or_le (expandWave w).radius (expandWave w).maxRadius with h | h
  · rw [if_neg (not_le.mpr h), if_pos h]
    simp [hitMeteor_foldr_meteors]
  · rw [if_pos h, if_neg (not_lt.mpr h)]

/-- Field view of one `processWave` step on the hit events: a dead wave
records nothing, an alive wave appends one event per banded meteor. -/
lemma processWave_hits (hm hh : Bool) (w : Wave) (acc : PassAcc) :
    (processWave hm hh w acc).hits
      = if (expandWave w).radius < (expandWave w).maxRadius
          then acc.hits ++ (acc.meteors.reverse.filter
                 (fun m => bandHitB (expandWave w) m)).map
                 (fun m => ((expandWave w).id, m.id))
          else acc.hits := by
  unfold processWave
  rcases lt_or_le (expandWave w).radius (expandWave w).maxRadius with h | h
  · rw [if_neg (not_le.mpr h), if_pos h]
    simp [hitMeteor_foldr_hits]
  · rw [if_pos h, if_neg (not_lt.mpr h)]

/-- The outer wave loop of `drawWaves` keeps exactly the expanded waves
that stayed below their max radius, in order. -/
lemma processWave_foldr_waves (hm hh : Bool) (ws : List Wave) (acc : PassAcc) :
    (ws.foldr (processWave hm hh) acc).waves = aliveWaves ws ++ acc.waves := by
  induction ws with
  | nil => simp [aliveWaves]
  | cons w t ih =>
    rw [List.foldr_cons, processWave_waves, aliveWaves_cons, ih]
    rcases lt_or_le (expandWave w).radius (expandWave w).maxRadius with h | h
    · rw [if_pos h, if_pos h, List.cons_append]
    · rw [if_neg (not_lt.mpr h), if_neg (not_lt.mpr h)]

/-- The outer wave loop of `drawWaves` keeps exactly the meteors that no
surviving (alive) wave catches in its ring band, as the same untouched
records in order; waves that died this tick check no meteors. -/
lemma processWave_foldr_meteors (hm hh : Bool) (ws : List Wave) (acc : PassAcc) :
    (ws.foldr (processWave hm hh) acc).meteors
      = acc.meteors.filter (fun m => !(aliveWaves ws).any (fun w => bandHitB w m)) := by
  induction ws with
  | nil => simp [aliveWaves]
  | cons w t ih =>
    rw [List.foldr_cons, processWave_meteors, aliveWaves_cons, ih]
    rcases lt_or_le (expandWave w).radius (expandWave w).maxRadius with h | h
    · rw [if_pos h, if_pos h, List.filter_filter]
      apply List.filter_congr
      intro m _
      cases hbm : bandHitB (expandWave w) m <;>
        cases hany : (aliveWaves t).any (fun w => bandHitB w m) <;>
          simp [List.any_cons, hbm, hany]
    · rw [if_neg (not_lt.mpr h), if_neg (not_lt.mpr h)]

/-- Restriction of the hit events recorded by one wave scan to a fixed
meteor id: with distinct ids, the scan records at most one event for the
meteor, exactly when it is present and inside the band. -/
lemma scan_events_filter (w : Wave) (m : Meteor) (l : List Meteor)
    (hu : ∀ a ∈ l, a.id = m.id → a = m)
    (hnd : (l.map Meteor.id).Nodup) :
    ((l.filter (fun a => bandHitB w a)).map (fun a => (w.id, a.id))).filter
        (fun e => decide (e.2 = m.id))
      = if m ∈ l ∧ bandHitB w m then [(w.id, m.id)] else [] := by
  induction l with
  | nil => simp
  | cons a t ih =>
    rw [List.map_cons] at hnd
    have hndt : (t.map Meteor.id).Nodup := hnd.of_cons
    have hat : a.id ∉ t.map Meteor.id := (List.nodup_cons.mp hnd).1
    have hut : ∀ b ∈ t, b.id = m.id → b = m := fun b hb => hu b (List.mem_cons_of_mem a hb)
    have iht := ih hut hndt
    rw [List.filter_cons]
    cases hba : bandHitB w a
    · have hiff : (m ∈ a :: t ∧ bandHitB w m = true) ↔ (m ∈ t ∧ bandHitB w m = true) := by
        constructor
        · rintro ⟨hmem, hband⟩
          rcases List.mem_cons.mp hmem with h | h
          · rw [h, hba] at hband; cases hband
          · exact ⟨h, hband⟩
        · rintro ⟨hmem, hband⟩
          exact ⟨List.mem_cons_of_mem a hmem, hband⟩
      simp only [Bool.false_eq_true, if_false]
      rw [iht, if_congr hiff rfl rfl]
    · simp only [if_true, List.map_cons, List.filter_cons]
      by_cases haid : a.id = m.id
      · have ham : a = m := hu a (List.mem_cons_self a t) haid
        have hmt : m ∉ t := by
          intro hmem
          exact hat (ham ▸ List.mem_map_of_mem Meteor.id hmem)
        rw [if_pos (by simpa using haid), iht,
          if_neg (fun hc => hmt hc.1), if_pos ⟨List.mem_cons.mpr (Or.inl ham.symm), ham ▸ hba⟩,
          haid]
      · rw [if_neg (by simpa using haid), iht]
        have hiff : (m ∈ t ∧ bandHitB w m = true) ↔ (m ∈ a :: t ∧ bandHitB w m = true) := by
          constructor
          · rintro ⟨hmem, hband⟩
            exact ⟨List.mem_cons_of_mem a hmem, hband⟩
          · rintro ⟨hmem, hband⟩
            rcases List.mem_cons.mp hmem with h | h
            · exact absurd (congrArg Meteor.id h).symm haid
            · exact ⟨h, hband⟩
        rw [if_congr hiff rfl rfl]

/-- Attribution of hit events across the full wave scan: with distinct
meteor ids, the events recorded for a given meteor are exactly one event
naming the first alive wave in scan order (self last-to-first over the
collection) whose ring band contains it, when the meteor is present. -/
lemma processWave_foldr_hits_filter (hm hh : Bool) (m : Meteor) (ws : List Wave)
    (acc : PassAcc)
    (hu : ∀ a ∈ acc.meteors, a.id = m.id → a = m)
    (hnd : (acc.meteors.map Meteor.id).Nodup) :
    ((ws.foldr (processWave hm hh) acc).hits).filter (fun e => decide (e.2 = m.id))
      = acc.hits.filter (fun e => decide (e.2 = m.id))
        ++ (if m ∈ acc.meteors then
              (((aliveWaves ws).reverse.find? (fun w => bandHitB w m)).map
                (fun w => (w.id, m.id))).toList
            else []) := by
  induction ws with
  | nil =>
    rcases Decidable.em (m ∈ acc.meteors) with hmem | hmem <;>
      simp [aliveWaves, hmem]
  | cons w t ih =>
    have hAm : (t.foldr (processWave hm hh) acc).meteors
        = acc.meteors.filter (fun a => !(aliveWaves t).any (fun w => bandHitB w a)) :=
      processWave_foldr_meteors hm hh t acc
    have huA : ∀ a ∈ (t.foldr (processWave hm hh) acc).meteors, a.id = m.id → a = m := by
      intro a ha
      rw [hAm] at ha
      exact hu a (List.mem_of_mem_filter ha)
    have hndA : ((t.foldr (processWave hm hh) acc).meteors.map Meteor.id).Nodup := by
      rw [hAm]
      exact ((List.filter_sublist _).map Meteor.id).nodup hnd
    rw [List.foldr_cons, processWave_hits, aliveWaves_cons]
    rcases lt_or_le (expandWave w).radius (expandWave w).maxRadius with halive | hdead
    · rw [if_pos halive, if_pos halive, List.filter_append, ih,
        List.reverse_cons, List.find?_append]
      have hev := scan_events_filter (expandWave w) m
        ((t.foldr (processWave hm hh) acc).meteors.reverse)
        (fun a ha => huA a (List.mem_reverse.mp ha))
        (by rw [List.map_reverse]; exact List.nodup_reverse.mpr hndA)
      rw [hev]
      rcases Decidable.em (m ∈ acc.meteors) with hmem | hmem
      · cases hfind : (aliveWaves t).reverse.find? (fun w => bandHitB w m) with
        | some wr =>
          have hwr := List.find?_some hfind
          have hwrmem : wr ∈ (aliveWaves t).reverse := List.mem_of_find?_eq_some hfind
          have hmA : m ∉ (t.foldr (processWave hm hh) acc).meteors := by
            rw [hAm]
            intro hc
            have h2 := (List.mem_filter.mp hc).2
            rw [Bool.not_eq_true'] at h2
            exact (List.any_eq_false.mp h2) wr (List.mem_reverse.mp hwrmem) hwr
          simp [hmem, hfind, hmA, Option.or]
        | none =>
          have hnone : ∀ w ∈ (aliveWaves t).reverse, ¬ bandHitB w m := by
            intro w hw
            have := List.find?_eq_none.mp hfind w hw
            simpa using this
          have hmA : m ∈ (t.foldr (processWave hm hh) acc).meteors := by
            rw [hAm]
            rw [List.mem_filter]
            refine ⟨hmem, ?_⟩
            simp only [Bool.not_eq_true']
            rw [List.any_eq_false]
            intro w hw
            simpa using hnone w (List.mem_reverse.mpr hw)
          cases hbm : bandHitB (expandWave w) m
          · simp [hmem, hfind, hmA, hbm, Option.or]
          · simp [hmem, hfind, hmA, hbm, Option.or]
      · have hmA : m ∉ (t.foldr (processWave hm hh) acc).meteors := by
          rw [hAm]
          exact fun hc => hmem (List.mem_of_mem_filter hc)
        simp [hmem, hmA]
    · rw [if_neg (not_lt.mpr hdead), if_neg (not_lt.mpr hdead), ih]

/-- Wave component of one `drawWaves` tick. -/
lemma drawWaves_waves (s : GameState) :
    (drawWaves s).1.waves = aliveWaves s.waves := by
  unfold drawWaves
  simp [processWave_foldr_waves]

/-- Meteor component of one `drawWaves` tick: exactly the meteors caught
in no alive ring band survive, untouched. -/
lemma drawWaves_meteors (s : GameState) :
    (drawWaves s).1.meteors
      = s.meteors.filter (fun m => !(aliveWaves s.waves).any (fun w => bandHitB w m)) := by
  unfold drawWaves
  simp [processWave_foldr_meteors]

/-- Hit events of one `drawWaves` tick restricted to one meteor id. -/
lemma drawWaves_hits_filter (s : GameState) (m : Meteor)
    (hu : ∀ a ∈ s.meteors, a.id = m.id → a = m)
    (hnd : (s.meteors.map Meteor.id).Nodup)
    (hmem : m ∈ s.meteors) :
    (drawWaves s).2.filter (fun e => decide (e.2 = m.id))
      = (((aliveWaves s.waves).reverse.find? (fun w => bandHitB w m)).map
          (fun w => (w.id, m.id))).toList := by
  unfold drawWaves
  have h := processWave_foldr_hits_filter
    (hasPU s.activePowerUps PowerUpType.multiplier)
    (hasPU s.activePowerUps PowerUpType.heal) m s.waves
    { waves := [], meteors := s.meteors, score := s.score, combo := s.combo,
      comboTimer := s.comboTimer, hp := s.hp, hits := [] } hu hnd
  simp only at h
  rw [h]
  simp [hmem]

/-- A concrete in-play game state with the given score, used to witness
the theorems below at explicit inputs. -/
def mkTestState (sc : ℤ) : GameState :=
  { score := sc, highScore := 0, hp := 100, meteors := [], waves := [],
    activePowerUps := [], bossProjectiles := [], mouseX := CENTER_X,
    mouseY := CENTER_Y, nextWaveId := 0, spawnTimer := 0, spawnInterval := 80,
    gameOver := false, combo := 0, comboTimer := 0, mouseDownTime := none,
    chargeProgress := 0, currentPhase := 1, boss := none, bossDefeated := false,
    gamePhase := GamePhase.playing, playerName := "Ana", leaderboard := [] }

/-- C2: firing a wave whose cost (10 simple, 30 strong) exceeds the score
changes nothing at all; with enough score, exactly the cost is deducted
and the new wave(s) are appended; firing never drives the score negative. -/
theorem currency_guard (strong : Bool) (ox oy : ℚ) (s : GameState) :
    (s.score < waveCost strong → fireWave strong ox oy s = s)
    ∧ (waveCost strong ≤ s.score →
        (fireWave strong ox oy s).score = s.score - waveCost strong ∧
        (fireWave strong ox oy s).waves = s.waves ++ firedWaves strong s.nextWaveId ox oy)
    ∧ (0 ≤ s.score → 0 ≤ (fireWave strong ox oy s).score) := by
  refine ⟨?_, ?_, ?_⟩ <;> intro h
  · unfold fireWave
    rw [if_pos h]
  · unfold fireWave
    rw [if_neg (not_lt.mpr h)]
    refine ⟨rfl, rfl⟩
  · unfold fireWave
    rcases lt_or_le s.score (waveCost strong) with hlt | hle
    · rw [if_pos hlt]; exact h
    · rw [if_neg (not_lt.mpr hle)]
      have : (0 : ℤ) ≤ s.score - waveCost strong := by omega
      exact this

/-- Witness for `currency_guard`: a simple wave is refused at score 5 and
a strong wave at score 100 costs exactly 30. -/
theorem currency_guard_witness :
    ((mkTestState 5).score < waveCost false
      ∧ fireWave false 10 10 (mkTestState 5) = mkTestState 5)
    ∧ (waveCost true ≤ (mkTestState 100).score
      ∧ (fireWave true 10 10 (mkTestState 100)).score
          = (mkTestState 100).score - waveCost true) :=
  ⟨⟨by decide, (currency_guard false 10 10 (mkTestState 5)).1 (by decide)⟩,
   ⟨by decide, ((currency_guard true 10 10 (mkTestState 100)).2.1 (by decide)).1⟩⟩

/-- C9: during play a release with a recorded press fires from the mouse
position, strong exactly when the held duration reaches the 2000 ms
threshold; a hold of exactly the threshold is strong, one millisecond less
is simple. -/
theorem hold_threshold (s : GameState) (now t0 : ℚ)
    (hph : s.gamePhase = GamePhase.playing) (hmd : s.mouseDownTime = some t0) :
    handleMouseUp now s
      = fireWave (releaseStrong (now - t0)) s.mouseX s.mouseY
          { s with mouseDownTime := none, chargeProgress := 0 }
    ∧ (releaseStrong (now - t0) = true ↔ HOLD_THRESHOLD_MS ≤ now - t0)
    ∧ releaseStrong HOLD_THRESHOLD_MS = true
    ∧ releaseStrong (HOLD_THRESHOLD_MS - 1) = false := by
  refine ⟨?_, by simp [releaseStrong], by simp [releaseStrong], ?_⟩
  · unfold handleMouseUp
    rw [if_neg (by rw [hph]; exact fun h => h rfl)]
    rw [hmd]
  · have h1 : ¬ HOLD_THRESHOLD_MS ≤ HOLD_THRESHOLD_MS - 1 := by
      unfold HOLD_THRESHOLD_MS; norm_num
    simp [releaseStrong, h1]

/-- Concrete state for the hold-threshold witness: in play with a press
recorded at time 0. -/
def holdTestState : GameState := { mkTestState 100 with mouseDownTime := some 0 }

/-- Witness for `hold_threshold` at a hold of exactly 2000 ms. -/
theorem hold_threshold_witness :
    handleMouseUp 2000 holdTestState
      = fireWave (releaseStrong (2000 - 0)) holdTestState.mouseX holdTestState.mouseY
          { holdTestState with mouseDownTime := none, chargeProgress := 0 } :=
  (hold_threshold holdTestState 2000 0 rfl rfl).1

/-- Monotonicity of the squared distance check in its threshold. -/
lemma ltDistB_mono (d2 k1 k2 : ℚ) (h12 : k1 ≤ k2) (h : ltDistB d2 k1 = true) :
    ltDistB d2 k2 = true := by
  unfold ltDistB at h ⊢
  rw [decide_eq_true_iff] at h ⊢
  obtain ⟨hk, hd⟩ := h
  refine ⟨lt_of_lt_of_le hk h12, lt_of_lt_of_le hd ?_⟩
  nlinarith

/-- C8: with an active shield buff the per-meteor coin check never touches
the state (in particular HP is unchanged and the damage branch is
unreachable, since the shield boundary strictly contains the damage
boundary and is tested first), and the meteor is destroyed exactly when its
moved position is inside the shield boundary of radius
`SUI_RADIUS + 30 + meteor radius`. -/
theorem shield_intercepts (s : GameState) (m : Meteor)
    (hs : hasPU s.activePowerUps PowerUpType.shield = true) :
    (updateMeteor s m).1 = s
    ∧ ((updateMeteor s m).2 = none ↔
        Real.sqrt ((distSq (moveMeteor m).x (moveMeteor m).y CENTER_X CENTER_Y : ℚ) : ℝ)
          < ((shieldRadius + m.radius : ℚ) : ℝ)) := by
  have hmr : (moveMeteor m).radius = m.radius := rfl
  unfold updateMeteor
  rw [hs]
  simp only [Bool.true_and, hmr]
  set d2 := distSq (moveMeteor m).x (moveMeteor m).y CENTER_X CENTER_Y with hd2
  have hiff := ltDistB_iff_sqrt d2 (shieldRadius + m.radius) (distSq_nonneg _ _ _ _)
  cases hlt : ltDistB d2 (shieldRadius + m.radius)
  · have hinner : ltDistB d2 (SUI_RADIUS + m.radius - 10) = false := by
      cases hin : ltDistB d2 (SUI_RADIUS + m.radius - 10)
      · rfl
      · have := ltDistB_mono d2 (SUI_RADIUS + m.radius - 10) (shieldRadius + m.radius)
          (by unfold shieldRadius; linarith) hin
        rw [hlt] at this
        cases this
    rw [if_neg (by simp), if_neg (by simp [hinner])]
    constructor
    · rfl
    · simp only [hlt] at hiff
      constructor
      · intro hc; cases hc
      · intro hc
        have : false = true := hiff.mpr hc
        cases this
  · rw [if_pos rfl]
    refine ⟨rfl, ?_⟩
    simp only [hlt] at hiff
    constructor
    · intro _; exact hiff.mp trivial
    · intro _; rfl

/-- Concrete state with an active shield and a meteor one step away from
the coin center. -/
def shieldTestState : GameState :=
  { mkTestState 100 with activePowerUps := [{ type := PowerUpType.shield, duration := 600 }] }

/-- Meteor one step left of the coin center, moving right. -/
def centerBoundMeteor : Meteor :=
  { id := 7, type := CoinType.BTC, x := 449, y := 325, vx := 1, vy := 0,
    radius := 25, rotation := 0, rotSpeed := 0, hp := 1 }

/-- Witness for `shield_intercepts`: the shielded state is untouched by
the meteor update. -/
theorem shield_intercepts_witness :
    (updateMeteor shieldTestState centerBoundMeteor).1 = shieldTestState :=
  (shield_intercepts shieldTestState centerBoundMeteor (by decide)).1

/-- The phase 1 boss as spawned by `spawnBoss` once it has descended to
its orbit band. -/
def pepeBoss : Boss :=
  { id := 1, type := BossType.PEPE_KING, x := 450, y := 150, vx := 0, vy := 1/2,
    radius := 60, hp := 1000, maxHp := 1000, rotation := 0, rotSpeed := 8/1000,
    attackTimer := 0, phase := 1 }

/-- A playing state at 3 HP with the phase 1 boss active. -/
def lowHpState : GameState := { mkTestState 500 with hp := 3, boss := some pepeBoss }

/-- A PEPE_KING projectile (damage 3) one step left of the coin center,
moving right. -/
def pepeProjectile : BossProjectile :=
  { id := 99, x := 449, y := 325, vx := 1, vy := 0, radius := 8,
    color := "#00FF88", damage := 3 }

/-- C3, failing input: a boss projectile drains the last HP, the code sets
`hp = 0` and the `gameOver` flag (which nothing reads), but the UI phase
stays `playing`, no leaderboard entry is recorded and the high score is not
persisted — unlike the meteor-collision branch (`gameOverTransition`). -/
theorem projectile_death_skips_gameover :
    (updateProjectile lowHpState pepeProjectile).1.hp = 0
    ∧ (updateProjectile lowHpState pepeProjectile).1.gameOver = true
    ∧ (updateProjectile lowHpState pepeProjectile).1.gamePhase = GamePhase.playing
    ∧ (updateProjectile lowHpState pepeProjectile).1.leaderboard = lowHpState.leaderboard
    ∧ (updateProjectile lowHpState pepeProjectile).1.highScore = lowHpState.highScore
    ∧ (updateProjectile lowHpState pepeProjectile).2 = none := by
  have hhit : ltDistB (distSq (449 + 1) (325 + 0) CENTER_X CENTER_Y) (SUI_RADIUS + 8) = true := by
    unfold ltDistB distSq CENTER_X CENTER_Y WIDTH HEIGHT SUI_RADIUS
    rw [decide_eq_true_iff]
    norm_num
  unfold updateProjectile
  simp only [lowHpState, pepeProjectile, mkTestState]
  rw [if_pos hhit]
  norm_num

/-- C4: starting from HP in [0, 100], any number of meteor hits, boss
projectile hits and heal events, in any order, leaves HP in [0, 100]. -/
theorem hp_bounds (events : List HpEvent) (hp : ℤ) (h0 : 0 ≤ hp) (h1 : hp ≤ 100) :
    0 ≤ events.foldl applyHpEvent hp ∧ events.foldl applyHpEvent hp ≤ 100 := by
  induction events generalizing hp with
  | nil => exact ⟨h0, h1⟩
  | cons e t ih =>
    rw [List.foldl_cons]
    have hstep : 0 ≤ applyHpEvent hp e ∧ applyHpEvent hp e ≤ 100 := by
      cases e with
      | meteorHit => simp only [applyHpEvent]; omega
      | projectileHit b =>
        cases b <;> simp only [applyHpEvent, bossProjectileDamage] <;> split <;> omega
      | healOnKill => simp only [applyHpEvent]; omega
    exact ih _ hstep.1 hstep.2

/-- Witness for `hp_bounds` on a concrete event sequence from HP 5. -/
theorem hp_bounds_witness :
    0 ≤ ([HpEvent.meteorHit, HpEvent.projectileHit BossType.PEPE_KING,
          HpEvent.healOnKill].foldl applyHpEvent 5)
    ∧ ([HpEvent.meteorHit, HpEvent.projectileHit BossType.PEPE_KING,
          HpEvent.healOnKill].foldl applyHpEvent 5) ≤ 100 :=
  hp_bounds _ 5 (by decide) (by decide)

/-- C7, amended: the per-spawn interval update never increases the
interval while it sits at or above its floor (40 in phase 1, 30 in
phase 2) and stays clamped at the floor; the only other write, the
phase 1 to 2 transition, either leaves the interval alone or resets it to
the constant 60. -/
theorem spawn_interval_amended (ph : ℕ) (i : ℚ) (hfloor : spawnIntervalFloor ph ≤ i) :
    (spawnIntervalStep ph i ≤ i ∧ spawnIntervalFloor ph ≤ spawnIntervalStep ph i)
    ∧ ∀ s : GameState, (phaseTransitionStep s).spawnInterval = s.spawnInterval
        ∨ (phaseTransitionStep s).spawnInterval = 60 := by
  constructor
  · unfold spawnIntervalStep
    exact ⟨max_le hfloor (by linarith), le_max_left _ _⟩
  · intro s
    unfold phaseTransitionStep
    split
    · right; rfl
    · left; rfl

/-- Witness for `spawn_interval_amended` at phase 1 and interval 80. -/
theorem spawn_interval_amended_witness :
    spawnIntervalStep 1 80 ≤ 80 ∧ spawnIntervalFloor 1 ≤ spawnIntervalStep 1 80 :=
  (spawn_interval_amended 1 80 (by unfold spawnIntervalFloor; norm_num)).1

/-- A phase 1 state whose spawn interval already reached the phase 1 floor
of 40, with the boss defeated and 1500 points: exactly the trigger of the
phase transition. -/
def phase1FloorState : GameState :=
  { mkTestState 1500 with bossDefeated := true, spawnInterval := 40 }

/-- C7, counterexample: the phase 1 to 2 transition raises the spawn
interval from the phase 1 floor 40 back to 60, so the interval is not
monotonically non-increasing across the session. -/
theorem spawn_interval_counterexample :
    phase1FloorState.spawnInterval = 40
    ∧ (phaseTransitionStep phase1FloorState).spawnInterval = 60
    ∧ phase1FloorState.spawnInterval
        < (phaseTransitionStep phase1FloorState).spawnInterval := by
  refine ⟨rfl, ?_, ?_⟩
  · unfold phaseTransitionStep
    rw [if_pos ⟨rfl, rfl, by decide⟩]
  · unfold phaseTransitionStep
    rw [if_pos ⟨rfl, rfl, by decide⟩]
    show (40 : ℚ) < 60
    norm_num

/-- The boss wave scan with an explicit break is the first match of the
reversed wave list. -/
lemma bossScanLoop_eq_find (s : GameState) (b : Boss) (l : List Wave) :
    bossScanLoop s b l
      = match l.find? (fun w => bossBandB w b) with
        | none => s
        | some w => applyBossHit s b w := by
  induction l with
  | nil => rfl
  | cons w t ih =>
    unfold bossScanLoop
    rw [List.find?_cons]
    cases hb : bossBandB w b
    · simp only [hb, Bool.false_eq_true, if_false]
      exact ih
    · simp only [hb, if_true]

/-- C10: with an active, undefeated boss, one tick of the wave scan
applies the hit of at most one wave — the first wave in scan order (the
source iterates the collection from its last element) whose ring band
overlaps the boss — adding that single damage amount (25 strong,
10 simple) to the score, plus the one-time defeat bonus exactly when the
boss HP drops to or below 0; with no overlapping wave the state is
unchanged. -/
theorem boss_single_hit (s : GameState) (b : Boss)
    (hb : s.boss = some b) (hd : s.bossDefeated = false) :
    (s.waves.reverse.find? (fun w => bossBandB w b) = none → bossWaveScan s = s)
    ∧ ∀ w, s.waves.reverse.find? (fun w => bossBandB w b) = some w →
        bossWaveScan s = applyBossHit s b w
        ∧ (bossWaveScan s).score
            = s.score + (if w.strong then 25 else 10)
              + (if b.hp - (if w.strong then 25 else 10) ≤ 0 then bossBonus b.type else 0)
        ∧ (bossWaveScan s).boss
            = (if b.hp - (if w.strong then 25 else 10) ≤ 0 then none
               else some { b with hp := b.hp - (if w.strong then 25 else 10) }) := by
  have hscan : bossWaveScan s
      = match s.waves.reverse.find? (fun w => bossBandB w b) with
        | none => s
        | some w => applyBossHit s b w := by
    unfold bossWaveScan
    rw [hb]
    simp only [hd, Bool.false_eq_true, if_false]
    exact bossScanLoop_eq_find s b s.waves.reverse
  constructor
  · intro hnone
    rw [hscan, hnone]
  · intro w hfind
    rw [hscan, hfind]
    refine ⟨rfl, ?_, ?_⟩
    · simp only [applyBossHit]
      rcases le_or_lt (b.hp - (if w.strong then 25 else 10)) 0 with hle | hgt
      · rw [if_pos hle, if_pos hle]
      · rw [if_neg (not_le.mpr hgt), if_neg (not_le.mpr hgt)]
        simp
    · simp only [applyBossHit]
      rcases le_or_lt (b.hp - (if w.strong then 25 else 10)) 0 with hle | hgt
      · rw [if_pos hle, if_pos hle]
      · rw [if_neg (not_le.mpr hgt), if_neg (not_le.mpr hgt)]

/-- A strong wave currently overlapping the boss position. -/
def bossBandWave : Wave :=
  { id := 3, x := 450, y := 150, radius := 50, maxRadius := 2000,
    alpha := 1, strong := true }

/-- A playing state with the phase 1 boss active and one wave on it. -/
def bossFightState : GameState :=
  { mkTestState 500 with boss := some pepeBoss, waves := [bossBandWave] }

/-- Witness for `boss_single_hit`: the single overlapping strong wave
deals 25 damage and adds 25 points, with no defeat bonus at 1000 HP. -/
theorem boss_single_hit_witness :
    bossWaveScan bossFightState = applyBossHit bossFightState pepeBoss bossBandWave
    ∧ (bossWaveScan bossFightState).score
        = bossFightState.score + (if bossBandWave.strong then 25 else 10)
          + (if pepeBoss.hp - (if bossBandWave.strong then 25 else 10) ≤ 0
             then bossBonus pepeBoss.type else 0) := by
  have hband : bossBandB bossBandWave pepeBoss = true := by
    unfold bossBandB ringBandAt distSq ringThickness bossBandWave pepeBoss
    rw [decide_eq_true_iff]
    norm_num
  have hfind : bossFightState.waves.reverse.find? (fun w => bossBandB w pepeBoss)
      = some bossBandWave := by
    show List.find? (fun w => bossBandB w pepeBoss) [bossBandWave] = some bossBandWave
    rw [List.find?_cons]
    simp [hband]
  have h := (boss_single_hit bossFightState pepeBoss rfl rfl).2 bossBandWave hfind
  exact ⟨h.1, h.2.1⟩

/-- Waves surviving the expansion step keep nonnegative radii when the
incoming radii are nonnegative. -/
lemma aliveWaves_radius_nonneg (ws : List Wave) (hw : ∀ w ∈ ws, 0 ≤ w.radius) :
    ∀ w ∈ aliveWaves ws, 0 ≤ w.radius := by
  intro w hwmem
  unfold aliveWaves at hwmem
  obtain ⟨w0, hw0, rfl⟩ := List.mem_map.mp (List.mem_of_mem_filter hwmem)
  have h0 := hw w0 hw0
  show (0 : ℚ) ≤ w0.radius + (if w0.strong then 9 else 6)
  have : (0 : ℚ) < if w0.strong then 9 else 6 := by split <;> norm_num
  linarith

/-- C5: every wave expands by exactly its speed (9 strong, 6 simple) this
tick, the survivors are exactly the expanded waves still below their max
radius (removal on the first tick `radius ≥ maxRadius`, never before), and
removed waves check no meteors (only alive waves filter the meteor list). -/
theorem wave_expansion (s : GameState) :
    (drawWaves s).1.waves
        = (s.waves.map expandWave).filter (fun w => decide (w.radius < w.maxRadius))
    ∧ (∀ w ∈ s.waves, w.radius < (expandWave w).radius
        ∧ (expandWave w).radius = w.radius + (if w.strong then 9 else 6))
    ∧ (drawWaves s).1.meteors
        = s.meteors.filter (fun m => !(aliveWaves s.waves).any (fun w => bandHitB w m)) := by
  refine ⟨?_, ?_, drawWaves_meteors s⟩
  · rw [drawWaves_waves]; rfl
  · intro w _
    refine ⟨?_, rfl⟩
    show w.radius < w.radius + (if w.strong then 9 else 6)
    have : (0 : ℚ) < if w.strong then 9 else 6 := by split <;> norm_num
    linarith

/-- A playing state with one freshly fired simple wave. -/
def waveTestState : GameState := { mkTestState 100 with waves := [simpleWave 0 100 100] }

/-- Witness for `wave_expansion` on a single simple wave. -/
theorem wave_expansion_witness :
    (drawWaves waveTestState).1.waves
        = (waveTestState.waves.map expandWave).filter
            (fun w => decide (w.radius < w.maxRadius))
    ∧ (simpleWave 0 100 100).radius < (expandWave (simpleWave 0 100 100)).radius :=
  ⟨(wave_expansion waveTestState).1,
   ((wave_expansion waveTestState).2.1 (simpleWave 0 100 100)
      (List.mem_singleton.mpr rfl)).1⟩

/-- C1, amended: a meteor survives the tick iff no surviving wave has it
inside its ring band — stated with the original real square-root distance
condition `|√d2 − r| < thickness + meteorRadius` — and survivors are the
untouched records (same position and velocity); a single-wave kill removes
the meteor within the same pass and awards the combo-and-multiplier scaled
points `⌊value·(multiplier ? 2 : 1)·(1 + min(combo+1, 10)/10)⌋`, not the
bare coin value. -/
theorem ring_band_hit (s : GameState)
    (hw : ∀ w ∈ s.waves, 0 ≤ w.radius) (hm : ∀ m ∈ s.meteors, 0 ≤ m.radius) :
    (∀ m ∈ s.meteors,
      (m ∈ (drawWaves s).1.meteors ↔
        ∀ w ∈ aliveWaves s.waves,
          ¬ |Real.sqrt ((distSq m.x m.y w.x w.y : ℚ) : ℝ) - (w.radius : ℝ)|
              < ((ringThickness w : ℚ) : ℝ) + (m.radius : ℝ)))
    ∧ (∀ w m0, s.waves = [w] → s.meteors = [m0]
        → (expandWave w).radius < (expandWave w).maxRadius
        → bandHitB (expandWave w) m0 = true
        → (drawWaves s).1.score
            = s.score + killPoints (hasPU s.activePowerUps PowerUpType.multiplier)
                (s.combo + 1) m0.type
          ∧ (drawWaves s).1.meteors = []) := by
  constructor
  · intro m hmem
    rw [drawWaves_meteors, List.mem_filter]
    have halive := aliveWaves_radius_nonneg s.waves hw
    constructor
    · rintro ⟨-, hall⟩ w hwa
      rw [Bool.not_eq_true'] at hall
      have hband := (List.any_eq_false.mp hall) w hwa
      have ht : 0 < ringThickness w + m.radius := by
        have h1 : (0:ℚ) < ringThickness w := by unfold ringThickness; split <;> norm_num
        have h2 := hm m hmem
        linarith
      rw [← ringBandAt_iff_sqrt w m.x m.y m.radius (halive w hwa) ht]
      simpa [bandHitB] using hband
    · intro hall
      refine ⟨hmem, ?_⟩
      rw [Bool.not_eq_true']
      rw [List.any_eq_false]
      intro w hwa
      have ht : 0 < ringThickness w + m.radius := by
        have h1 : (0:ℚ) < ringThickness w := by unfold ringThickness; split <;> norm_num
        have h2 := hm m hmem
        linarith
      have := hall w hwa
      rw [← ringBandAt_iff_sqrt w m.x m.y m.radius (halive w hwa) ht] at this
      simpa [bandHitB] using this
  · intro w m0 hws hms halive hband
    have hmet : (drawWaves s).1.meteors = [] := by
      rw [drawWaves_meteors, hms, hws]
      have hone : aliveWaves [w] = [expandWave w] := by
        rw [aliveWaves_cons]
        rw [if_pos (by exact halive)]
        simp [aliveWaves]
      rw [hone]
      simp [hband]
    refine ⟨?_, hmet⟩
    unfold drawWaves
    rw [hws, hms]
    simp only [List.foldr_cons, List.foldr_nil]
    rw [processWave]
    rw [if_neg (not_le.mpr halive)]
    simp only [List.foldr_cons, List.foldr_nil]
    rw [hitMeteor]
    rw [if_pos hband]

/-- A BTC meteor sitting 10 units from the origin of a fresh simple wave,
well inside the ring band after one expansion. -/
def killTestMeteor : Meteor :=
  { id := 5, type := CoinType.BTC, x := 10, y := 0, vx := 0, vy := 0,
    radius := 25, rotation := 0, rotSpeed := 0, hp := 1 }

/-- A playing state with one fresh simple wave at the origin and the BTC
meteor in its band: combo 0, no buffs, score 100. -/
def killTestState : GameState :=
  { mkTestState 100 with waves := [simpleWave 0 0 0], meteors := [killTestMeteor] }

/-- The ring band of the expanded test wave contains the test meteor. -/
lemma killTest_band : bandHitB (expandWave (simpleWave 0 0 0)) killTestMeteor = true := by
  unfold bandHitB ringBandAt distSq ringThickness expandWave simpleWave killTestMeteor
  rw [decide_eq_true_iff]
  norm_num

/-- The expanded test wave is still alive. -/
lemma killTest_alive :
    (expandWave (simpleWave 0 0 0)).radius < (expandWave (simpleWave 0 0 0)).maxRadius := by
  unfold expandWave simpleWave
  norm_num

/-- Witness for `ring_band_hit`: the single-wave kill of the test meteor
removes it in the same pass and awards the scaled points. -/
theorem ring_band_hit_witness :
    (drawWaves killTestState).1.score
        = killTestState.score
          + killPoints (hasPU killTestState.activePowerUps PowerUpType.multiplier)
              (killTestState.combo + 1) killTestMeteor.type
    ∧ (drawWaves killTestState).1.meteors = [] :=
  (ring_band_hit killTestState
      (by intro w hw; rw [show killTestState.waves = [simpleWave 0 0 0] from rfl] at hw;
          rw [List.mem_singleton.mp hw]; show (0:ℚ) ≤ 8; norm_num)
      (by intro m hm; rw [show killTestState.meteors = [killTestMeteor] from rfl] at hm;
          rw [List.mem_singleton.mp hm]; show (0:ℚ) ≤ 25; norm_num)).2
    (simpleWave 0 0 0) killTestMeteor rfl rfl killTest_alive killTest_band

/-- C1, counterexample to the claim as stated: destroying the test BTC
meteor awards 55 points (the combo-scaled amount), not its bare score
value 50 — the score moves from 100 to 155, not 150. -/
theorem ring_band_hit_counterexample :
    (drawWaves killTestState).1.meteors = []
    ∧ (drawWaves killTestState).1.score = 155
    ∧ ¬ (drawWaves killTestState).1.score
          = killTestState.score + COIN_SCORE killTestMeteor.type := by
  have hsc : (drawWaves killTestState).1.score = 155 := by
    unfold drawWaves
    rw [show killTestState.waves = [simpleWave 0 0 0] from rfl,
        show killTestState.meteors = [killTestMeteor] from rfl]
    simp only [List.foldr_cons, List.foldr_nil]
    rw [processWave]
    rw [if_neg (not_le.mpr killTest_alive)]
    simp only [List.foldr_cons, List.foldr_nil]
    rw [hitMeteor]
    rw [if_pos killTest_band]
    show killTestState.score + killPoints (hasPU killTestState.activePowerUps
      PowerUpType.multiplier) (killTestState.combo + 1) killTestMeteor.type = 155
    rw [show killTestState.score = 100 from rfl,
        show killTestState.combo = 0 from rfl]
    rw [show hasPU killTestState.activePowerUps PowerUpType.multiplier = false from rfl,
        show killTestMeteor.type = CoinType.BTC from rfl]
    simp only [killPoints, COIN_SCORE]
    norm_num
  have hmet : (drawWaves killTestState).1.meteors = [] := by
    rw [drawWaves_meteors]
    rw [show killTestState.waves = [simpleWave 0 0 0] from rfl,
        show killTestState.meteors = [killTestMeteor] from rfl]
    rw [aliveWaves_cons, if_pos killTest_alive]
    simp [aliveWaves, killTest_band]
  refine ⟨hmet, hsc, ?_⟩
  rw [hsc, show killTestState.score = 100 from rfl]
  unfold killTestMeteor COIN_SCORE
  norm_num

/-- C6, amended: with distinct meteor ids, a given meteor is hit by at
most one wave per tick, and the hit is attributed to the first banding
alive wave in scan order — the scan iterates the wave collection from its
last element to its first, so the last overlapping wave in collection
order wins, not the first. -/
theorem first_scan_wave_wins (s : GameState)
    (hnd : (s.meteors.map Meteor.id).Nodup) (m : Meteor) (hm : m ∈ s.meteors) :
    (drawWaves s).2.filter (fun e => decide (e.2 = m.id))
      = (((aliveWaves s.waves).reverse.find? (fun w => bandHitB w m)).map
          (fun w => (w.id, m.id))).toList
    ∧ ((drawWaves s).2.filter (fun e => decide (e.2 = m.id))).length ≤ 1 := by
  have h := drawWaves_hits_filter s m
    (fun a ha hid => List.inj_on_of_nodup_map hnd ha hm hid) hnd hm
  refine ⟨h, ?_⟩
  rw [h]
  cases (aliveWaves s.waves).reverse.find? (fun w => bandHitB w m) <;> simp

/-- Expanded simple waves are always alive (radius 14 against max 200). -/
lemma simpleWave_alive (wid : ℕ) (ox oy : ℚ) :
    (expandWave (simpleWave wid ox oy)).radius < (expandWave (simpleWave wid ox oy)).maxRadius := by
  unfold expandWave simpleWave
  norm_num

/-- Any expanded simple wave fired at the origin catches the test meteor. -/
lemma simpleWave_band_killTest (wid : ℕ) :
    bandHitB (expandWave (simpleWave wid 0 0)) killTestMeteor = true := by
  unfold bandHitB ringBandAt distSq ringThickness expandWave simpleWave killTestMeteor
  rw [decide_eq_true_iff]
  norm_num

/-- A playing state with two identical simple waves (ids 0 and 1, in that
collection order) both banding the single test meteor. -/
def dualWaveState : GameState :=
  { mkTestState 100 with
      waves := [simpleWave 0 0 0, simpleWave 1 0 0]
      meteors := [killTestMeteor] }

/-- Witness for `first_scan_wave_wins` on the two-wave state. -/
theorem first_scan_wave_wins_witness :
    (drawWaves dualWaveState).2.filter (fun e => decide (e.2 = killTestMeteor.id))
      = (((aliveWaves dualWaveState.waves).reverse.find?
            (fun w => bandHitB w killTestMeteor)).map
          (fun w => (w.id, killTestMeteor.id))).toList :=
  (first_scan_wave_wins dualWaveState
      (by rw [show dualWaveState.meteors = [killTestMeteor] from rfl]; simp)
      killTestMeteor (List.mem_singleton.mpr rfl)).1

/-- C6, counterexample to the claim as stated: with waves of ids `[0, 1]`
in collection order both overlapping the meteor, the recorded hit names
wave 1 — the last wave of the collection, which the backward scan visits
first — not wave 0. -/
theorem first_scan_wave_wins_counterexample :
    (drawWaves dualWaveState).2 = [(1, killTestMeteor.id)]
    ∧ dualWaveState.waves.map Wave.id = [0, 1] := by
  refine ⟨?_, rfl⟩
  have hb0 := simpleWave_band_killTest 0
  have hb1 := simpleWave_band_killTest 1
  simp only [drawWaves]
  rw [show dualWaveState.waves = [simpleWave 0 0 0, simpleWave 1 0 0] from rfl,
      show dualWaveState.meteors = [killTestMeteor] from rfl]
  rw [List.foldr_cons, List.foldr_cons, List.foldr_nil]
  rw [processWave_hits, if_pos (simpleWave_alive 0 0 0)]
  rw [processWave_hits, if_pos (simpleWave_alive 1 0 0)]
  rw [processWave_meteors, if_pos (simpleWave_alive 1 0 0)]
  simp [hb0, hb1]
  rfl
